import Mathlib

/-!
Verification of the Hyphen go-sdk feature-toggle client (pkg/toggle/toggle.go,
internal/client/client.go) against its natural-language specification.

Go strings are modelled as Lean `String`s; byte slices produced by base64
decoding are modelled as `List Nat` with every element below 256, and
`string(decoded)` as the character-wise image under `Char.ofNat` (injective on
byte values, so byte-string equality and splitting on the colon byte are
preserved).  The standard library base64 codec (`encoding/base64`,
`StdEncoding`) is modelled by `b64EncodeGroups` / `b64DecodeGroups` below:
RFC 4648 standard alphabet with mandatory padding; the decoder rejects
non-alphabet characters, lengths that are not a multiple of four and
misplaced padding, exactly as `DecodeString` does on newline-free input.
-/

/-- The standard base64 alphabet: index (0..63) to character. -/
def b64Char (n : Nat) : Char :=
  if n < 26 then Char.ofNat (65 + n)
  else if n < 52 then Char.ofNat (97 + (n - 26))
  else if n < 62 then Char.ofNat (48 + (n - 52))
  else if n = 62 then Char.ofNat 43
  else Char.ofNat 47

/-- The standard base64 alphabet: character to index, none for non-alphabet. -/
def b64Index (c : Char) : Option Nat :=
  if 65 ≤ c.toNat ∧ c.toNat ≤ 90 then some (c.toNat - 65)
  else if 97 ≤ c.toNat ∧ c.toNat ≤ 122 then some (26 + (c.toNat - 97))
  else if 48 ≤ c.toNat ∧ c.toNat ≤ 57 then some (52 + (c.toNat - 48))
  else if c.toNat = 43 then some 62
  else if c.toNat = 47 then some 63
  else none

/-- Standard base64 encoding of a byte sequence, three bytes to four
characters, padded with `=`. -/
def b64EncodeGroups : List Nat → List Char
  | [] => []
  | [a] => [b64Char (a / 4), b64Char ((a % 4) * 16), Char.ofNat 61, Char.ofNat 61]
  | [a, b] => [b64Char (a / 4), b64Char ((a % 4) * 16 + b / 16),
      b64Char ((b % 16) * 4), Char.ofNat 61]
  | a :: b :: d :: rest =>
      b64Char (a / 4) :: b64Char ((a % 4) * 16 + b / 16) ::
      b64Char ((b % 16) * 4 + d / 64) :: b64Char (d % 64) :: b64EncodeGroups rest

/-- Standard base64 decoding: four characters to three bytes, padding allowed
only at the very end.  Models `base64.StdEncoding.DecodeString` (which keeps
any unused trailing bits, as the non-strict Go decoder does). -/
def b64DecodeGroups : List Char → Option (List Nat)
  | [] => some []
  | c1 :: c2 :: c3 :: c4 :: rest =>
      match b64Index c1, b64Index c2 with
      | some i1, some i2 =>
          if c3 = Char.ofNat 61 then
            if c4 = Char.ofNat 61 ∧ rest = [] then
              some [i1 * 4 + i2 / 16]
            else none
          else
            match b64Index c3 with
            | some i3 =>
                if c4 = Char.ofNat 61 then
                  if rest = [] then
                    some [i1 * 4 + i2 / 16, (i2 % 16) * 16 + i3 / 4]
                  else none
                else
                  match b64Index c4 with
                  | some i4 =>
                      match b64DecodeGroups rest with
                      | some tail =>
                          some ((i1 * 4 + i2 / 16) :: ((i2 % 16) * 16 + i3 / 4) ::
                                ((i3 % 4) * 64 + i4) :: tail)
                      | none => none
                  | none => none
            | none => none
      | _, _ => none
  | _ => none

/-- The bytes of an ASCII/byte string (`[]byte(s)` for byte-valued strings). -/
def strBytes (s : String) : List Nat := s.data.map Char.toNat

/-- Go `string(decoded)` for a decoded byte slice: byte-wise characters. -/
def bytesStr (bs : List Nat) : String := String.mk (bs.map Char.ofNat)

/-- Go `strings.Split(s, sep)` for a one-character separator, at the
character-list level: splits on every occurrence, always at least one part. -/
def splitOnChar (sep : Char) : List Char → List (List Char)
  | [] => [[]]
  | c :: rest =>
      if c = sep then [] :: splitOnChar sep rest
      else
        match splitOnChar sep rest with
        | [] => [[c]]
        | h :: t => (c :: h) :: t

/-- `getOrgIDFromPublicKey` from pkg/toggle/toggle.go: strip the `public_`
marker, base64-decode the remainder, split the decoded text on `:` and return
the first segment; every failure returns the empty string. -/
def getOrgIDFromPublicKey (publicKey : String) : String :=
  if "public_".data.isPrefixOf publicKey.data then
    match b64DecodeGroups (publicKey.data.drop 7) with
    | some decoded =>
        match splitOnChar (Char.ofNat 58) ((bytesStr decoded).data) with
        | [] => ""
        | p :: _ => String.mk p
    | none => ""
  else ""

-- Basic facts about the base64 model.

theorem b64Index_b64Char : ∀ n < 64, b64Index (b64Char n) = some n := by
  decide

theorem b64Char_ne_eq : ∀ n < 64, b64Char n ≠ Char.ofNat 61 := by
  decide

theorem b64_roundtrip : ∀ bs : List Nat, (∀ b ∈ bs, b < 256) →
    b64DecodeGroups (b64EncodeGroups bs) = some bs := by
  intro bs
  induction bs using b64EncodeGroups.induct with
  | case1 =>
      intro _
      simp [b64EncodeGroups, b64DecodeGroups]
  | case2 a =>
      intro h
      have ha : a < 256 := h a (by simp)
      have h1 : a / 4 < 64 := by omega
      have h2 : (a % 4) * 16 < 64 := by omega
      simp only [b64EncodeGroups, b64DecodeGroups,
        b64Index_b64Char _ h1, b64Index_b64Char _ h2,
        b64Char_ne_eq _ h2, if_false, if_neg (b64Char_ne_eq _ h2)]
      simp [b64Char_ne_eq _ h2]
      omega
  | case3 a b =>
      intro h
      have ha : a < 256 := h a (by simp)
      have hb : b < 256 := h b (by simp)
      have h1 : a / 4 < 64 := by omega
      have h2 : (a % 4) * 16 + b / 16 < 64 := by omega
      have h3 : (b % 16) * 4 < 64 := by omega
      simp only [b64EncodeGroups, b64DecodeGroups,
        b64Index_b64Char _ h1, b64Index_b64Char _ h2, b64Index_b64Char _ h3]
      simp [b64Char_ne_eq _ h3]
      omega
  | case4 a b d rest ih =>
      intro h
      have ha : a < 256 := h a (by simp)
      have hb : b < 256 := h b (by simp)
      have hd : d < 256 := h d (by simp)
      have hrest : ∀ x ∈ rest, x < 256 := by
        intro x hx; exact h x (by simp [hx])
      have h1 : a / 4 < 64 := by omega
      have h2 : (a % 4) * 16 + b / 16 < 64 := by omega
      have h3 : (b % 16) * 4 + d / 64 < 64 := by omega
      have h4 : d % 64 < 64 := by omega
      simp only [b64EncodeGroups, b64DecodeGroups,
        b64Index_b64Char _ h1, b64Index_b64Char _ h2, b64Index_b64Char _ h3,
        b64Index_b64Char _ h4, ih hrest]
      simp [b64Char_ne_eq _ h3, b64Char_ne_eq _ h4]
      omega

-- Facts about splitOnChar (Go strings.Split with a one-character separator).

theorem splitOnChar_ne_nil (sep : Char) : ∀ l, splitOnChar sep l ≠ [] := by
  intro l
  induction l with
  | nil => simp [splitOnChar]
  | cons c rest ih =>
      by_cases h : c = sep
      · simp [splitOnChar, h]
      · simp only [splitOnChar, if_neg h]
        cases hr : splitOnChar sep rest with
        | nil => simp
        | cons a t => simp

theorem splitOnChar_head (sep : Char) :
    ∀ l, ∃ t, splitOnChar sep l = (l.takeWhile (fun c => c ≠ sep)) :: t := by
  intro l
  induction l with
  | nil => exact ⟨[], rfl⟩
  | cons c rest ih =>
      by_cases h : c = sep
      · refine ⟨splitOnChar sep rest, ?_⟩
        simp [splitOnChar, h, List.takeWhile]
      · obtain ⟨t, ht⟩ := ih
        refine ⟨t, ?_⟩
        simp only [splitOnChar, if_neg h, ht, List.takeWhile]
        simp [h]

theorem splitOnChar_append_sep (sep : Char) (l r : List Char) (hl : sep ∉ l) :
    splitOnChar sep (l ++ sep :: r) = l :: splitOnChar sep r := by
  induction l with
  | nil => simp [splitOnChar]
  | cons c rest ih =>
      have hc : c ≠ sep := by intro h; exact hl (by simp [h])
      have hrest : sep ∉ rest := by intro h; exact hl (by simp [h])
      simp only [List.cons_append, splitOnChar, if_neg hc]
      rw [show rest.append (sep :: r) = rest ++ sep :: r from rfl, ih hrest]

-- The decoder only produces byte values.

theorem b64Index_lt (c : Char) (i : Nat) (h : b64Index c = some i) : i < 64 := by
  unfold b64Index at h
  split at h
  · simp at h; omega
  · split at h
    · simp at h; omega
    · split at h
      · simp at h; omega
      · split at h
        · simp at h; omega
        · split at h
          · simp at h; omega
          · simp at h

theorem b64DecodeBound : ∀ n cs bs, List.length cs ≤ n →
    b64DecodeGroups cs = some bs → ∀ b ∈ bs, b < 256 := by
  intro n
  induction n with
  | zero =>
      intro cs bs hlen h b hb
      rcases cs with _ | ⟨c, rest⟩
      · simp [b64DecodeGroups] at h
        subst h
        simp at hb
      · simp at hlen
  | succ n ih =>
      intro cs bs hlen h b hb
      rcases cs with _ | ⟨c1, _ | ⟨c2, _ | ⟨c3, _ | ⟨c4, rest⟩⟩⟩⟩
      · simp [b64DecodeGroups] at h
        subst h
        simp at hb
      · simp [b64DecodeGroups] at h
      · simp [b64DecodeGroups] at h
      · simp [b64DecodeGroups] at h
      · simp only [b64DecodeGroups] at h
        cases h1 : b64Index c1 with
        | none => rw [h1] at h; simp at h
        | some i1 =>
        cases h2 : b64Index c2 with
        | none => rw [h1, h2] at h; simp at h
        | some i2 =>
        rw [h1, h2] at h
        simp only at h
        have hi1 := b64Index_lt c1 i1 h1
        have hi2 := b64Index_lt c2 i2 h2
        split at h
        · split at h
          · simp at h
            subst h
            simp at hb
            omega
          · simp at h
        · cases h3 : b64Index c3 with
          | none => rw [h3] at h; simp at h
          | some i3 =>
          rw [h3] at h
          simp only at h
          have hi3 := b64Index_lt c3 i3 h3
          split at h
          · split at h
            · simp at h
              subst h
              simp at hb
              rcases hb with hb | hb <;> omega
            · simp at h
          · cases h4 : b64Index c4 with
            | none => rw [h4] at h; simp at h
            | some i4 =>
            rw [h4] at h
            simp only at h
            have hi4 := b64Index_lt c4 i4 h4
            cases hrest : b64DecodeGroups rest with
            | none => rw [hrest] at h; simp at h
            | some tail =>
            rw [hrest] at h
            simp at h
            subst h
            simp at hb
            have hlt : List.length rest ≤ n := by simp at hlen; omega
            rcases hb with hb | hb | hb | hb
            · omega
            · omega
            · omega
            · exact ih rest tail hlt hrest b hb

theorem b64DecodeGroups_lt_256 (cs : List Char) (bs : List Nat)
    (h : b64DecodeGroups cs = some bs) : ∀ b ∈ bs, b < 256 :=
  b64DecodeBound (List.length cs) cs bs (Nat.le_refl _) h

-- Characterization of the key decoder.

theorem getOrg_not_marked (s : String)
    (h : ¬ "public_".data.isPrefixOf s.data) : getOrgIDFromPublicKey s = "" := by
  unfold getOrgIDFromPublicKey
  rw [if_neg h]

theorem map_ofNat_toNat (l : List Char) : (l.map Char.toNat).map Char.ofNat = l := by
  induction l with
  | nil => rfl
  | cons c cs ih => simp only [List.map_cons, Char.ofNat_toNat, ih]

theorem takeWhile_append_sep (sep : Char) (l r : List Char) (hl : sep ∉ l) :
    (l ++ sep :: r).takeWhile (fun c => c ≠ sep) = l := by
  induction l with
  | nil => rw [List.nil_append, List.takeWhile_cons_of_neg (by simp)]
  | cons c rest ih =>
      have hc : c ≠ sep := fun h => hl (by simp [h])
      have hrest : sep ∉ rest := fun h => hl (by simp [h])
      rw [List.cons_append, List.takeWhile_cons_of_pos (by simp [hc]), ih hrest]

theorem getOrg_decode (s : String) (bs : List Nat)
    (hp : "public_".data.isPrefixOf s.data)
    (hd : b64DecodeGroups (s.data.drop 7) = some bs) :
    getOrgIDFromPublicKey s =
      String.mk ((bs.map Char.ofNat).takeWhile (fun c => c ≠ Char.ofNat 58)) := by
  unfold getOrgIDFromPublicKey
  rw [if_pos hp, hd]
  obtain ⟨t, ht⟩ := splitOnChar_head (Char.ofNat 58) ((bytesStr bs).data)
  simp only [ht]
  rfl

theorem getOrg_bad_decode (s : String)
    (hd : b64DecodeGroups (s.data.drop 7) = none) :
    getOrgIDFromPublicKey s = "" := by
  unfold getOrgIDFromPublicKey
  rw [hd]
  split <;> rfl

theorem pair_data (tenant secret : String) :
    (tenant ++ ":" ++ secret).data =
      tenant.data ++ Char.ofNat 58 :: secret.data := by
  have hc : (":" : String).data = [Char.ofNat 58] := by decide
  simp only [String.data_append, hc, List.append_assoc, List.singleton_append]

theorem getOrg_encode (tenant secret : String)
    (h1 : ∀ c ∈ tenant.data, c.toNat < 256)
    (h2 : ∀ c ∈ secret.data, c.toNat < 256)
    (h3 : Char.ofNat 58 ∉ tenant.data) :
    getOrgIDFromPublicKey
      ("public_" ++ String.mk (b64EncodeGroups (strBytes (tenant ++ ":" ++ secret))))
      = tenant := by
  have hbound : ∀ b ∈ strBytes (tenant ++ ":" ++ secret), b < 256 := by
    intro b hb
    unfold strBytes at hb
    rw [pair_data, List.map_append, List.map_cons] at hb
    rcases List.mem_append.mp hb with h | h
    · rcases List.mem_map.mp h with ⟨c, hc, rfl⟩
      exact h1 c hc
    · rcases List.mem_cons.mp h with h | h
      · subst h; decide
      · rcases List.mem_map.mp h with ⟨c, hc, rfl⟩
        exact h2 c hc
  have hdata :
      ("public_" ++ String.mk (b64EncodeGroups (strBytes (tenant ++ ":" ++ secret)))).data
      = "public_".data ++ b64EncodeGroups (strBytes (tenant ++ ":" ++ secret)) := rfl
  have hp : "public_".data.isPrefixOf
      ("public_" ++ String.mk (b64EncodeGroups (strBytes (tenant ++ ":" ++ secret)))).data := by
    rw [hdata, List.isPrefixOf_iff_prefix]
    exact List.prefix_append _ _
  have hdrop :
      ("public_" ++ String.mk (b64EncodeGroups (strBytes (tenant ++ ":" ++ secret)))).data.drop 7
      = b64EncodeGroups (strBytes (tenant ++ ":" ++ secret)) := by
    rw [hdata]
    have h7 : "public_".data.length = 7 := rfl
    rw [← h7, List.drop_left]
  rw [getOrg_decode _ _ hp (by rw [hdrop]; exact b64_roundtrip _ hbound)]
  have hb2 : (strBytes (tenant ++ ":" ++ secret)).map Char.ofNat
      = tenant.data ++ Char.ofNat 58 :: secret.data := by
    unfold strBytes
    rw [pair_data, map_ofNat_toNat]
  rw [hb2, takeWhile_append_sep _ _ _ h3]

/-- `getDefaultHorizonURL` from pkg/toggle/toggle.go (the Go local `orgID`
is inlined; the function is pure). -/
def getDefaultHorizonURL (publicKey : String) : String :=
  if publicKey = "" then "https://toggle.hyphen.cloud"
  else if getOrgIDFromPublicKey publicKey = "" then "https://toggle.hyphen.cloud"
  else "https://" ++ getOrgIDFromPublicKey publicKey ++ ".toggle.hyphen.cloud"

/-- `getDefaultHorizonURLs` from pkg/toggle/toggle.go (the Go locals
`defaultURL` and `orgURL` are inlined; the functions are pure). -/
def getDefaultHorizonURLs (publicKey : String) : List String :=
  if publicKey = "" then ["https://toggle.hyphen.cloud"]
  else if getDefaultHorizonURL publicKey = "https://toggle.hyphen.cloud" then
    ["https://toggle.hyphen.cloud"]
  else [getDefaultHorizonURL publicKey, "https://toggle.hyphen.cloud"]

/-- The horizon-URL selection step of `New` (pkg/toggle/toggle.go lines
158-162): a supplied non-empty list wins, otherwise the default resolution. -/
def resolveHorizonURLs (optURLs : List String) (publicKey : String) : List String :=
  if optURLs.length = 0 then getDefaultHorizonURLs publicKey else optURLs

/-- A dynamically typed JSON-decoded Go value (`interface{}` after
`json.Unmarshal`): nil, bool, float64, string, array or object. -/
inductive GoValue where
  | null
  | boolVal (b : Bool)
  | numVal (q : Rat)
  | strVal (s : String)
  | arrVal (elems : List GoValue)
  | objVal (fields : List (String × GoValue))

/-- `User` from pkg/toggle/toggle.go. -/
structure User where
  id : String
  email : String
  name : String
  customAttributes : List (String × GoValue)

/-- `Context` from pkg/toggle/toggle.go (a `*Context` is `Option Context`). -/
structure Context where
  targetingKey : String
  ipAddress : String
  customAttributes : List (String × GoValue)
  user : Option User

/-- `strings.Join(parts, sep)`. -/
def joinSep (sep : String) : List String → String
  | [] => ""
  | [x] => x
  | x :: xs => x ++ sep ++ joinSep sep xs

/-- `generateTargetKey` from pkg/toggle/toggle.go; the value of `rand.Int63()`
is passed in as `r`, and `fmt.Sprintf("%d", r)` is its decimal rendering. -/
def generateTargetKey (applicationID environment : String) (r : Nat) : String :=
  let randomSuffix := Nat.repr r
  let components : List String :=
    (if applicationID ≠ "" then [applicationID] else []) ++
    (if environment ≠ "" then [environment] else []) ++ [randomSuffix]
  joinSep "-" components

/-- `getTargetingKey` from pkg/toggle/toggle.go. -/
def getTargetingKey (ctx : Context) (applicationID environment : String)
    (r : Nat) : String :=
  if ctx.targetingKey ≠ "" then ctx.targetingKey
  else
    match ctx.user with
    | some u =>
        if u.id ≠ "" then u.id
        else generateTargetKey applicationID environment r
    | none => generateTargetKey applicationID environment r

/-- The default-targeting-key computation of `New` (pkg/toggle/toggle.go
lines 164-172). -/
def newDefaultTargetingKey (optsKey : String) (defaultContext : Option Context)
    (applicationID environment : String) (r : Nat) : String :=
  if optsKey = "" then
    match defaultContext with
    | some c => getTargetingKey c applicationID environment r
    | none => generateTargetKey applicationID environment r
  else optsKey

/-- The fields of the `Toggle` struct used by context building. -/
structure ToggleClient where
  applicationID : String
  environment : String
  defaultContext : Option Context
  defaultTargetingKey : String

/-- `toggleEvaluation` from pkg/toggle/toggle.go: the wire request shape. -/
structure ToggleEvaluation where
  application : String
  environment : String
  targetingKey : String
  ipAddress : String
  customAttributes : List (String × GoValue)
  user : Option User

/-- `buildEvaluationContext` from pkg/toggle/toggle.go; `r` is the random
value drawn if the generated-key fallback is reached. -/
def buildEvaluationContext (t : ToggleClient) (contextOverride : Option Context)
    (r : Nat) : ToggleEvaluation :=
  let ctx : Option Context :=
    match contextOverride with
    | some c => some c
    | none => t.defaultContext
  let eval0 : ToggleEvaluation :=
    { application := t.applicationID, environment := t.environment,
      targetingKey := "", ipAddress := "", customAttributes := [], user := none }
  let eval1 : ToggleEvaluation :=
    match ctx with
    | some c =>
        { eval0 with
            targetingKey := c.targetingKey,
            ipAddress := c.ipAddress,
            customAttributes := c.customAttributes,
            user := c.user }
    | none => eval0
  if eval1.targetingKey = "" then
    match ctx with
    | some c =>
        { eval1 with targetingKey := getTargetingKey c t.applicationID t.environment r }
    | none => { eval1 with targetingKey := t.defaultTargetingKey }
  else eval1

-- The decimal rendering of a natural number is never the empty string.

theorem toDigitsCore_length (b : Nat) : ∀ fuel n ds, 1 ≤ fuel →
    List.length ds + 1 ≤ List.length (Nat.toDigitsCore b fuel n ds) := by
  intro fuel
  induction fuel with
  | zero => intro n ds h; exact absurd h (by decide)
  | succ fuel ih =>
      intro n ds _
      have hstep : Nat.toDigitsCore b (fuel + 1) n ds =
          if n / b = 0 then (n % b).digitChar :: ds
          else Nat.toDigitsCore b fuel (n / b) ((n % b).digitChar :: ds) := rfl
      rw [hstep]
      by_cases h : n / b = 0
      · rw [if_pos h]
        simp
      · rw [if_neg h]
        rcases Nat.eq_zero_or_pos fuel with hf | hf
        · subst hf
          have hz : Nat.toDigitsCore b 0 (n / b) ((n % b).digitChar :: ds)
              = (n % b).digitChar :: ds := rfl
          rw [hz]
          simp
        · have hih := ih (n / b) ((n % b).digitChar :: ds) hf
          simp at hih ⊢
          omega

theorem natRepr_ne_empty (r : Nat) : Nat.repr r ≠ "" := by
  unfold Nat.repr Nat.toDigits
  intro h
  have hlen := toDigitsCore_length 10 (r + 1) r [] (by omega)
  simp at hlen
  have : (Nat.toDigitsCore 10 (r + 1) r []).asString.data
      = Nat.toDigitsCore 10 (r + 1) r [] := rfl
  rw [h] at this
  have h0 : (("" : String)).data = [] := rfl
  rw [h0] at this
  rw [← this] at hlen
  simp at hlen

theorem generateTargetKey_ne_empty (a e : String) (r : Nat) :
    generateTargetKey a e r ≠ "" := by
  unfold generateTargetKey
  have hr := natRepr_ne_empty r
  by_cases ha : a = "" <;> by_cases he : e = "" <;>
    simp [ha, he, joinSep] <;>
    intro h <;>
    first
      | exact hr h
      | (apply hr; have := congrArg String.data h;
         simp [String.data_append] at this)

/-- `Evaluation` from pkg/toggle/toggle.go: one evaluated toggle entry. -/
structure Evaluation where
  key : String
  value : GoValue
  type : String
  reason : GoValue
  errorMessage : String

/-- The error values `Get` can build or receive (`fmt.Errorf` trees); leaves
are transport-level failures from `internal/client`, including a failure
caused by cancellation of the calling context. -/
inductive GoError where
  | requestFailed (url : String) (cause : GoError)
  | httpStatus (code : Nat) (status : String)
  | unmarshalFailed
  | allFailed (last : Option GoError)
  | ctxCancelled
  | transportFailure (msg : String)

/-- The body of a 200 response: either it unmarshals into
`EvaluationResponse` (a toggles mapping) or it does not. -/
inductive BodyContent where
  | malformed
  | parsed (toggles : List (String × Evaluation))

/-- The outcome of one `client.Post` call: a transport error, or a status
line plus body. -/
inductive PostOutcome where
  | postErr (e : GoError)
  | postOk (status : Nat) (statusText : String) (body : BodyContent)

/-- What one `Get` call produced: the returned value and error, the errors
passed to the configured error handler, and how many POST attempts were
made. -/
structure EvalOutcome where
  value : GoValue
  error : Option GoError
  emitted : List GoError
  attempts : Nat

/-- Whether one endpoint attempt fails (transport error, non-200 status, or
unparseable body), i.e. whether `Get` records an error and continues. -/
def attemptFails : PostOutcome → Bool
  | .postErr _ => true
  | .postOk status _ body =>
      if status ≠ 200 then true
      else
        match body with
        | .malformed => true
        | .parsed _ => false

/-- The error `Get` records for a failing attempt against `url`. -/
def attemptError (url : String) : PostOutcome → GoError
  | .postErr e => .requestFailed url e
  | .postOk status statusText _ =>
      if status ≠ 200 then .httpStatus status statusText
      else .unmarshalFailed

/-- The endpoint loop of `Get` (pkg/toggle/toggle.go lines 207-237).  The
transport is abstracted by `world`: the outcome of the n-th POST issued.
`n` counts attempts made so far, `lastErr` is the `lastErr` variable. -/
def getAux (handlerSet : Bool) (world : Nat → PostOutcome) (toggleKey : String)
    (defaultValue : GoValue) :
    List String → Nat → Option GoError → EvalOutcome
  | [], n, lastErr =>
      let e := GoError.allFailed lastErr
      { value := defaultValue, error := some e,
        emitted := if handlerSet then [e] else [], attempts := n }
  | url :: rest, n, lastErr =>
      match world n with
      | .postErr e =>
          getAux handlerSet world toggleKey defaultValue rest (n + 1)
            (some (.requestFailed url e))
      | .postOk status statusText body =>
          if status ≠ 200 then
            getAux handlerSet world toggleKey defaultValue rest (n + 1)
              (some (.httpStatus status statusText))
          else
            match body with
            | .malformed =>
                getAux handlerSet world toggleKey defaultValue rest (n + 1)
                  (some .unmarshalFailed)
            | .parsed toggles =>
                match toggles.lookup toggleKey with
                | some ev =>
                    { value := ev.value, error := none, emitted := [],
                      attempts := n + 1 }
                | none =>
                    { value := defaultValue, error := none, emitted := [],
                      attempts := n + 1 }

/-- `Get` from pkg/toggle/toggle.go: try every horizon URL in order; on
exhaustion wrap the last error, emit it, and return the default. -/
def toggleGet (handlerSet : Bool) (urls : List String) (world : Nat → PostOutcome)
    (toggleKey : String) (defaultValue : GoValue) : EvalOutcome :=
  getAux handlerSet world toggleKey defaultValue urls 0 none

/-- The value of the `lastErr` variable after running the loop over the
given endpoints (all assumed failing), starting from a seed value. -/
def finalErr (world : Nat → PostOutcome) :
    List String → Nat → Option GoError → Option GoError
  | [], _, le => le
  | url :: rest, n, _ =>
      finalErr world rest (n + 1) (some (attemptError url (world n)))

/-- `GetBoolean` from pkg/toggle/toggle.go, also exposing the errors passed
to the error handler. -/
def getBooleanFull (handlerSet : Bool) (urls : List String)
    (world : Nat → PostOutcome) (toggleKey : String) (defaultValue : Bool) :
    Bool × List GoError :=
  let r := toggleGet handlerSet urls world toggleKey (.boolVal defaultValue)
  match r.error with
  | some _ => (defaultValue, r.emitted)
  | none =>
      match r.value with
      | .boolVal b => (b, r.emitted)
      | _ => (defaultValue, r.emitted)

/-- `GetString` from pkg/toggle/toggle.go. -/
def getStringFull (handlerSet : Bool) (urls : List String)
    (world : Nat → PostOutcome) (toggleKey : String) (defaultValue : String) :
    String × List GoError :=
  let r := toggleGet handlerSet urls world toggleKey (.strVal defaultValue)
  match r.error with
  | some _ => (defaultValue, r.emitted)
  | none =>
      match r.value with
      | .strVal s => (s, r.emitted)
      | _ => (defaultValue, r.emitted)

/-- `GetNumber` from pkg/toggle/toggle.go (float64 values carried
opaquely). -/
def getNumberFull (handlerSet : Bool) (urls : List String)
    (world : Nat → PostOutcome) (toggleKey : String) (defaultValue : Rat) :
    Rat × List GoError :=
  let r := toggleGet handlerSet urls world toggleKey (.numVal defaultValue)
  match r.error with
  | some _ => (defaultValue, r.emitted)
  | none =>
      match r.value with
      | .numVal q => (q, r.emitted)
      | _ => (defaultValue, r.emitted)

/-- `GetObject` from pkg/toggle/toggle.go. -/
def getObjectFull (handlerSet : Bool) (urls : List String)
    (world : Nat → PostOutcome) (toggleKey : String)
    (defaultValue : List (String × GoValue)) :
    List (String × GoValue) × List GoError :=
  let r := toggleGet handlerSet urls world toggleKey (.objVal defaultValue)
  match r.error with
  | some _ => (defaultValue, r.emitted)
  | none =>
      match r.value with
      | .objVal fields => (fields, r.emitted)
      | _ => (defaultValue, r.emitted)

-- Evaluator loop lemmas.

theorem getAux_skip (hs : Bool) (world : Nat → PostOutcome) (key : String)
    (dflt : GoValue) (url : String) (rest : List String) (n : Nat)
    (le : Option GoError) (hf : attemptFails (world n) = true) :
    getAux hs world key dflt (url :: rest) n le =
      getAux hs world key dflt rest (n + 1)
        (some (attemptError url (world n))) := by
  cases hw : world n with
  | postErr e => simp [getAux, hw, attemptError]
  | postOk status statusText body =>
      unfold attemptFails at hf
      rw [hw] at hf
      by_cases hst : status = 200
      · subst hst
        simp at hf
        cases body with
        | malformed => simp [getAux, hw, attemptError]
        | parsed toggles => simp at hf
      · simp [getAux, hw, attemptError, hst]

theorem getAux_success (hs : Bool) (world : Nat → PostOutcome) (key : String)
    (dflt : GoValue) (url : String) (rest : List String) (n : Nat)
    (le : Option GoError) (st : String) (toggles : List (String × Evaluation))
    (hw : world n = .postOk 200 st (.parsed toggles)) :
    getAux hs world key dflt (url :: rest) n le =
      { value := match toggles.lookup key with
                 | some ev => ev.value
                 | none => dflt,
        error := none, emitted := [], attempts := n + 1 } := by
  simp only [getAux, hw]
  simp
  cases hl : toggles.lookup key with
  | none => simp
  | some ev => simp

theorem getAux_allFail (hs : Bool) (world : Nat → PostOutcome) (key : String)
    (dflt : GoValue) :
    ∀ (urls : List String) (n : Nat) (le : Option GoError),
    (∀ i, i < urls.length → attemptFails (world (n + i)) = true) →
    getAux hs world key dflt urls n le =
      { value := dflt,
        error := some (.allFailed (finalErr world urls n le)),
        emitted := if hs then [.allFailed (finalErr world urls n le)] else [],
        attempts := n + urls.length } := by
  intro urls
  induction urls with
  | nil =>
      intro n le _
      simp [getAux, finalErr]
  | cons url rest ih =>
      intro n le hfail
      have h0 : attemptFails (world n) = true := by
        have := hfail 0 (by simp)
        simpa using this
      rw [getAux_skip hs world key dflt url rest n le h0]
      have hrest : ∀ i, i < rest.length → attemptFails (world (n + 1 + i)) = true := by
        intro i hi
        have := hfail (i + 1) (by simp; omega)
        have harith : n + (i + 1) = n + 1 + i := by omega
        rwa [harith] at this
      rw [ih (n + 1) (some (attemptError url (world n))) hrest]
      have : finalErr world (url :: rest) n le =
          finalErr world rest (n + 1) (some (attemptError url (world n))) := rfl
      rw [this]
      have hlen : n + 1 + rest.length = n + (url :: rest).length := by
        simp; omega
      rw [hlen]

theorem getAux_firstSuccess (hs : Bool) (world : Nat → PostOutcome) (key : String)
    (dflt : GoValue) :
    ∀ (urls : List String) (n : Nat) (le : Option GoError) (i : Nat)
      (st : String) (toggles : List (String × Evaluation)),
    i < urls.length →
    (∀ j, j < i → attemptFails (world (n + j)) = true) →
    world (n + i) = .postOk 200 st (.parsed toggles) →
    getAux hs world key dflt urls n le =
      { value := match toggles.lookup key with
                 | some ev => ev.value
                 | none => dflt,
        error := none, emitted := [], attempts := n + i + 1 } := by
  intro urls
  induction urls with
  | nil =>
      intro n le i st toggles hi
      simp at hi
  | cons url rest ih =>
      intro n le i st toggles hi hfb hsucc
      cases i with
      | zero =>
          simp at hsucc
          exact getAux_success hs world key dflt url rest n le st toggles hsucc
      | succ k =>
          have h0 : attemptFails (world n) = true := by
            have := hfb 0 (by omega)
            simpa using this
          rw [getAux_skip hs world key dflt url rest n le h0]
          have hfb2 : ∀ j, j < k → attemptFails (world (n + 1 + j)) = true := by
            intro j hj
            have := hfb (j + 1) (by omega)
            have harith : n + (j + 1) = n + 1 + j := by omega
            rwa [harith] at this
          have hsucc2 : world (n + 1 + k) = .postOk 200 st (.parsed toggles) := by
            have harith : n + (k + 1) = n + 1 + k := by omega
            rwa [harith] at hsucc
          have hlen : k < rest.length := by simp at hi; omega
          rw [ih (n + 1) (some (attemptError url (world n))) k st toggles hlen hfb2 hsucc2]
          have harith : n + 1 + k + 1 = n + (k + 1) + 1 := by omega
          rw [harith]

theorem finalErr_last (world : Nat → PostOutcome) :
    ∀ (urls : List String) (n : Nat) (le : Option GoError) (h : urls ≠ []),
    finalErr world urls n le =
      some (attemptError (urls.getLast h) (world (n + urls.length - 1))) := by
  intro urls
  induction urls with
  | nil => intro n le h; exact absurd rfl h
  | cons url rest ih =>
      intro n le hcons
      cases rest with
      | nil =>
          simp [finalErr, List.getLast]
      | cons r2 rs =>
          have hne : (r2 :: rs : List String) ≠ [] := by simp
          have hstep : finalErr world (url :: r2 :: rs) n le =
              finalErr world (r2 :: rs) (n + 1) (some (attemptError url (world n))) := rfl
          rw [hstep, ih (n + 1) (some (attemptError url (world n))) hne]
          have hg : (url :: r2 :: rs).getLast hcons = (r2 :: rs).getLast hne :=
            List.getLast_cons hne
          rw [hg]
          have h2 : n + 1 + (r2 :: rs).length - 1 = n + (url :: r2 :: rs).length - 1 := by
            simp
            omega
          rw [h2]

theorem not_fails_success (o : PostOutcome) (h : attemptFails o = false) :
    ∃ st toggles, o = .postOk 200 st (.parsed toggles) := by
  cases o with
  | postErr e => simp [attemptFails] at h
  | postOk status st body =>
      unfold attemptFails at h
      by_cases hst : status = 200
      · subst hst
        simp at h
        cases body with
        | malformed => simp at h
        | parsed toggles => exact ⟨st, toggles, rfl⟩
      · simp [hst] at h

theorem finalErr_some (world : Nat → PostOutcome) :
    ∀ (urls : List String) (n : Nat) (e : GoError),
    ∃ e2, finalErr world urls n (some e) = some e2 := by
  intro urls
  induction urls with
  | nil => intro n e; exact ⟨e, rfl⟩
  | cons url rest ih =>
      intro n e
      exact ih (n + 1) (attemptError url (world n))

theorem getAux_error_shape (hs : Bool) (world : Nat → PostOutcome) (key : String)
    (dflt : GoValue) :
    ∀ (urls : List String) (n : Nat) (le : Option GoError),
    (getAux hs world key dflt urls n le).error = none ∨
    (getAux hs world key dflt urls n le).error =
      some (.allFailed (finalErr world urls n le)) := by
  intro urls
  induction urls with
  | nil => intro n le; right; simp [getAux, finalErr]
  | cons url rest ih =>
      intro n le
      cases hf : attemptFails (world n) with
      | false =>
          obtain ⟨st, toggles, hw⟩ := not_fails_success (world n) hf
          left
          rw [getAux_success hs world key dflt url rest n le st toggles hw]
      | true =>
          rw [getAux_skip hs world key dflt url rest n le hf]
          have hfe : finalErr world (url :: rest) n le =
              finalErr world rest (n + 1) (some (attemptError url (world n))) := rfl
          rw [hfe]
          exact ih (n + 1) (some (attemptError url (world n)))

theorem getAux_attempts (hs : Bool) (world : Nat → PostOutcome) (key : String)
    (dflt : GoValue) :
    ∀ (urls : List String) (n : Nat) (le : Option GoError),
    n ≤ (getAux hs world key dflt urls n le).attempts := by
  intro urls
  induction urls with
  | nil => intro n le; simp [getAux]
  | cons url rest ih =>
      intro n le
      cases hf : attemptFails (world n) with
      | false =>
          obtain ⟨st, toggles, hw⟩ := not_fails_success (world n) hf
          rw [getAux_success hs world key dflt url rest n le st toggles hw]
          simp
      | true =>
          rw [getAux_skip hs world key dflt url rest n le hf]
          have := ih (n + 1) (some (attemptError url (world n)))
          omega

theorem getAux_attempts_cons (hs : Bool) (world : Nat → PostOutcome) (key : String)
    (dflt : GoValue) (url : String) (rest : List String) (n : Nat)
    (le : Option GoError) :
    n + 1 ≤ (getAux hs world key dflt (url :: rest) n le).attempts := by
  cases hf : attemptFails (world n) with
  | false =>
      obtain ⟨st, toggles, hw⟩ := not_fails_success (world n) hf
      rw [getAux_success hs world key dflt url rest n le st toggles hw]
  | true =>
      rw [getAux_skip hs world key dflt url rest n le hf]
      exact getAux_attempts hs world key dflt rest (n + 1) _

theorem orgURL_ne_default (orgID : String) :
    "https://" ++ orgID ++ ".toggle.hyphen.cloud" ≠ "https://toggle.hyphen.cloud" := by
  have ha : ("https://" : String).data.length = 8 := by decide
  have hb : (".toggle.hyphen.cloud" : String).data.length = 20 := by decide
  have hc : ("https://toggle.hyphen.cloud" : String).data.length = 27 := by decide
  intro he
  have hlen := congrArg (fun s : String => s.data.length) he
  simp only [String.data_append, List.length_append, ha, hb, hc] at hlen
  omega

theorem toNat_ofNat_byte (b : Nat) (hb : b < 256) : (Char.ofNat b).toNat = b := by
  have hv : b.isValidChar := Or.inl (by omega)
  rw [Char.ofNat, dif_pos hv]
  rfl

theorem ofNat_byte_inj (b : Nat) (hb : b < 256) :
    Char.ofNat b = Char.ofNat 58 ↔ b = 58 := by
  constructor
  · intro h
    have := congrArg Char.toNat h
    rw [toNat_ofNat_byte b hb, toNat_ofNat_byte 58 (by omega)] at this
    exact this
  · intro h
    rw [h]

theorem getTargetingKey_ne_empty (c : Context) (a e : String) (r : Nat) :
    getTargetingKey c a e r ≠ "" := by
  unfold getTargetingKey
  by_cases ht : c.targetingKey ≠ ""
  · simp [ht]
  · simp [ht]
    cases hu : c.user with
    | none => exact generateTargetKey_ne_empty a e r
    | some u =>
        by_cases hid : u.id = ""
        · simp [hid]
          exact generateTargetKey_ne_empty a e r
        · simp [hid]

theorem newDefaultTargetingKey_ne_empty (optsKey : String)
    (defaultContext : Option Context) (a e : String) (r : Nat) :
    newDefaultTargetingKey optsKey defaultContext a e r ≠ "" := by
  unfold newDefaultTargetingKey
  by_cases h : optsKey = ""
  · simp [h]
    cases defaultContext with
    | none => exact generateTargetKey_ne_empty a e r
    | some c => exact getTargetingKey_ne_empty c a e r
  · simp [h]

theorem buildEvaluationContext_active (t : ToggleClient) (c : Context)
    (contextOverride : Option Context) (r : Nat)
    (hc : (match contextOverride with
           | some c2 => some c2
           | none => t.defaultContext) = some c) :
    buildEvaluationContext t contextOverride r =
      { application := t.applicationID, environment := t.environment,
        targetingKey := if c.targetingKey = ""
          then getTargetingKey c t.applicationID t.environment r
          else c.targetingKey,
        ipAddress := c.ipAddress, customAttributes := c.customAttributes,
        user := c.user } := by
  unfold buildEvaluationContext
  rw [hc]
  by_cases h : c.targetingKey = "" <;> simp [h]

theorem buildEvaluationContext_inactive (t : ToggleClient) (r : Nat)
    (ho : t.defaultContext = none) :
    buildEvaluationContext t none r =
      { application := t.applicationID, environment := t.environment,
        targetingKey := t.defaultTargetingKey,
        ipAddress := "", customAttributes := [], user := none } := by
  unfold buildEvaluationContext
  rw [ho]
  simp

theorem toggleGet_firstSuccess (hs : Bool) (urls : List String)
    (world : Nat → PostOutcome) (key : String) (dflt : GoValue) (i : Nat)
    (st : String) (toggles : List (String × Evaluation))
    (hi : i < urls.length)
    (hfb : ∀ j, j < i → attemptFails (world j) = true)
    (hsucc : world i = .postOk 200 st (.parsed toggles)) :
    toggleGet hs urls world key dflt =
      { value := match toggles.lookup key with
                 | some ev => ev.value
                 | none => dflt,
        error := none, emitted := [], attempts := i + 1 } := by
  unfold toggleGet
  have h := getAux_firstSuccess hs world key dflt urls 0 none i st toggles hi
    (by intro j hj; simpa using hfb j hj) (by simpa using hsucc)
  simpa using h

theorem toggleGet_allFail (hs : Bool) (urls : List String)
    (world : Nat → PostOutcome) (key : String) (dflt : GoValue)
    (hf : ∀ i, i < urls.length → attemptFails (world i) = true) :
    toggleGet hs urls world key dflt =
      { value := dflt, error := some (.allFailed (finalErr world urls 0 none)),
        emitted := if hs then [.allFailed (finalErr world urls 0 none)] else [],
        attempts := urls.length } := by
  unfold toggleGet
  have h := getAux_allFail hs world key dflt urls 0 none
    (by intro j hj; simpa using hf j hj)
  simpa using h

/-- C7: for every credential string not beginning with the public marker
`public_`, key decoding returns "not found" (the empty string); and for every
valid public credential of the form `public_<base64("tenant:secret")>`
(byte-valued strings, no colon in the tenant), key decoding returns the
tenant — decoding is a left inverse of the prefix-and-base64 embedding. -/
theorem c7_key_decoding :
    (∀ s : String, ¬ "public_".data.isPrefixOf s.data →
       getOrgIDFromPublicKey s = "") ∧
    (∀ tenant secret : String,
       (∀ c ∈ tenant.data, c.toNat < 256) →
       (∀ c ∈ secret.data, c.toNat < 256) →
       Char.ofNat 58 ∉ tenant.data →
       getOrgIDFromPublicKey
         ("public_" ++ String.mk (b64EncodeGroups (strBytes (tenant ++ ":" ++ secret))))
         = tenant) := by
  constructor
  · intro s h
    exact getOrg_not_marked s (by simpa using h)
  · intro tenant secret h1 h2 h3
    exact getOrg_encode tenant secret h1 h2 h3

/-- Witness for C7 at concrete inputs. -/
theorem c7_key_decoding_witness :
    getOrgIDFromPublicKey "credential" = "" ∧
    getOrgIDFromPublicKey
      ("public_" ++ String.mk (b64EncodeGroups (strBytes ("tenant" ++ ":" ++ "secret"))))
      = "tenant" :=
  ⟨c7_key_decoding.1 "credential" (by decide),
   c7_key_decoding.2 "tenant" "secret" (by decide) (by decide) (by decide)⟩

/-- C6: targeting key resolution precedence — a non-empty explicit
`targetingKey` wins; otherwise a present user with non-empty id wins;
otherwise the generated key, which joins the non-empty members of
[applicationId, environment, random digits] with `-` and is never empty. -/
theorem c6_targeting_key_precedence (ctx : Context) (a e : String) (r : Nat) :
    (ctx.targetingKey ≠ "" → getTargetingKey ctx a e r = ctx.targetingKey) ∧
    (∀ u, ctx.targetingKey = "" → ctx.user = some u → u.id ≠ "" →
       getTargetingKey ctx a e r = u.id) ∧
    (ctx.targetingKey = "" →
       (ctx.user = none ∨ ∃ u, ctx.user = some u ∧ u.id = "") →
       getTargetingKey ctx a e r = generateTargetKey a e r) ∧
    generateTargetKey a e r =
      joinSep "-" ((if a ≠ "" then [a] else []) ++
        (if e ≠ "" then [e] else []) ++ [Nat.repr r]) ∧
    Nat.repr r ≠ "" ∧
    generateTargetKey a e r ≠ "" := by
  refine ⟨?_, ?_, ?_, rfl, natRepr_ne_empty r, generateTargetKey_ne_empty a e r⟩
  · intro h
    unfold getTargetingKey
    simp [h]
  · intro u h hu hid
    unfold getTargetingKey
    simp [h, hu, hid]
  · intro h hcase
    unfold getTargetingKey
    simp [h]
    rcases hcase with hc | ⟨u, hu, hid⟩
    · simp [hc]
    · simp [hu, hid]

/-- Witness for C6 at concrete inputs. -/
theorem c6_targeting_key_precedence_witness :
    getTargetingKey ⟨"tk", "", [], none⟩ "app" "env" 7 = "tk" ∧
    getTargetingKey ⟨"", "", [], some ⟨"uid", "", "", []⟩⟩ "app" "env" 7 = "uid" ∧
    getTargetingKey ⟨"", "", [], none⟩ "app" "env" 7 =
      generateTargetKey "app" "env" 7 := by
  refine ⟨?_, ?_, ?_⟩
  · exact (c6_targeting_key_precedence ⟨"tk", "", [], none⟩ "app" "env" 7).1
      (by decide)
  · exact (c6_targeting_key_precedence ⟨"", "", [], some ⟨"uid", "", "", []⟩⟩
      "app" "env" 7).2.1 ⟨"uid", "", "", []⟩ rfl rfl (by decide)
  · exact (c6_targeting_key_precedence ⟨"", "", [], none⟩ "app" "env" 7).2.2.1
      rfl (Or.inl rfl)

/-- C5: endpoint resolution — a non-empty explicit list is used verbatim
regardless of the credential; with no override and a valid public credential
with a given tenant the list is exactly [tenant-scoped URL, global URL]; with
no override and an empty or unresolvable credential it is exactly the global
URL alone. -/
theorem c5_endpoint_resolution :
    (∀ (urls : List String) (pk : String), urls ≠ [] →
       resolveHorizonURLs urls pk = urls) ∧
    (∀ tenant secret : String, tenant ≠ "" →
       (∀ c ∈ tenant.data, c.toNat < 256) →
       (∀ c ∈ secret.data, c.toNat < 256) →
       Char.ofNat 58 ∉ tenant.data →
       resolveHorizonURLs []
         ("public_" ++ String.mk (b64EncodeGroups (strBytes (tenant ++ ":" ++ secret))))
         = ["https://" ++ tenant ++ ".toggle.hyphen.cloud",
            "https://toggle.hyphen.cloud"]) ∧
    (∀ pk : String, getOrgIDFromPublicKey pk = "" →
       resolveHorizonURLs [] pk = ["https://toggle.hyphen.cloud"]) := by
  refine ⟨?_, ?_, ?_⟩
  · intro urls pk hne
    unfold resolveHorizonURLs
    rw [if_neg]
    simpa using hne
  · intro tenant secret hten h1 h2 h3
    have horg := getOrg_encode tenant secret h1 h2 h3
    have hpk_ne :
        ("public_" ++ String.mk (b64EncodeGroups (strBytes (tenant ++ ":" ++ secret))))
        ≠ "" := by
      intro h
      have hdata := congrArg String.data h
      simp [String.data_append] at hdata
    have hurl : getDefaultHorizonURL
        ("public_" ++ String.mk (b64EncodeGroups (strBytes (tenant ++ ":" ++ secret))))
        = "https://" ++ tenant ++ ".toggle.hyphen.cloud" := by
      unfold getDefaultHorizonURL
      rw [if_neg hpk_ne, horg, if_neg hten]
    unfold resolveHorizonURLs getDefaultHorizonURLs
    simp only [List.length_nil]
    rw [if_pos trivial, if_neg hpk_ne, hurl]
    rw [if_neg (orgURL_ne_default tenant)]
  · intro pk horg
    unfold resolveHorizonURLs getDefaultHorizonURLs
    simp only [List.length_nil]
    rw [if_pos trivial]
    by_cases hpk : pk = ""
    · rw [if_pos hpk]
    · rw [if_neg hpk]
      have hurl : getDefaultHorizonURL pk = "https://toggle.hyphen.cloud" := by
        unfold getDefaultHorizonURL
        rw [if_neg hpk, horg, if_pos rfl]
      rw [hurl, if_pos rfl]

/-- Witness for C5 at concrete inputs. -/
theorem c5_endpoint_resolution_witness :
    resolveHorizonURLs ["https://x.example"] "whatever" = ["https://x.example"] ∧
    resolveHorizonURLs []
      ("public_" ++ String.mk (b64EncodeGroups (strBytes ("t" ++ ":" ++ "sec"))))
      = ["https://" ++ "t" ++ ".toggle.hyphen.cloud", "https://toggle.hyphen.cloud"] ∧
    resolveHorizonURLs [] "" = ["https://toggle.hyphen.cloud"] :=
  ⟨c5_endpoint_resolution.1 ["https://x.example"] "whatever" (by decide),
   c5_endpoint_resolution.2.1 "t" "sec" (by decide) (by decide) (by decide) (by decide),
   c5_endpoint_resolution.2.2 "" (by decide)⟩

/-- C10: for every public-prefixed credential whose payload is valid standard
base64, the decoder returns the decoded text up to the first colon — the
whole text when it has no colon byte, and "" exactly when the decoded bytes
are empty or start with the colon byte; splitting always yields at least one
segment, so the decoder's no-segments branch is unreachable. -/
theorem c10_decoder_payload :
    (∀ (s : String) (bs : List Nat), "public_".data.isPrefixOf s.data →
       b64DecodeGroups (s.data.drop 7) = some bs →
       getOrgIDFromPublicKey s =
         String.mk ((bs.map Char.ofNat).takeWhile (fun c => c ≠ Char.ofNat 58))) ∧
    (∀ (s : String) (bs : List Nat), "public_".data.isPrefixOf s.data →
       b64DecodeGroups (s.data.drop 7) = some bs → (58 : Nat) ∉ bs →
       getOrgIDFromPublicKey s = bytesStr bs) ∧
    (∀ (s : String) (bs : List Nat), "public_".data.isPrefixOf s.data →
       b64DecodeGroups (s.data.drop 7) = some bs →
       (getOrgIDFromPublicKey s = "" ↔ bs = [] ∨ ∃ t, bs = 58 :: t)) ∧
    (∀ l : List Char, splitOnChar (Char.ofNat 58) l ≠ []) := by
  refine ⟨?_, ?_, ?_, splitOnChar_ne_nil (Char.ofNat 58)⟩
  · intro s bs hp hd
    exact getOrg_decode s bs hp hd
  · intro s bs hp hd h58
    rw [getOrg_decode s bs hp hd]
    unfold bytesStr
    congr 1
    rw [List.takeWhile_eq_self_iff]
    intro x hx
    rcases List.mem_map.mp hx with ⟨b, hb, rfl⟩
    have hlt : b < 256 := b64DecodeGroups_lt_256 _ _ hd b hb
    have hne : b ≠ 58 := fun h => h58 (h ▸ hb)
    simp only [decide_eq_true_eq]
    intro hcontra
    exact hne ((ofNat_byte_inj b hlt).mp hcontra)
  · intro s bs hp hd
    rw [getOrg_decode s bs hp hd]
    constructor
    · intro h
      have hdata := congrArg String.data h
      simp only [String.data_append] at hdata
      have hnil : (bs.map Char.ofNat).takeWhile (fun c => c ≠ Char.ofNat 58)
          = [] := hdata
      cases bs with
      | nil => left; rfl
      | cons b t =>
          right
          refine ⟨t, ?_⟩
          have hlt : b < 256 := b64DecodeGroups_lt_256 _ _ hd b (by simp)
          rw [List.map_cons, List.takeWhile_cons] at hnil
          by_cases hbx : Char.ofNat b = Char.ofNat 58
          · rw [(ofNat_byte_inj b hlt).mp hbx]
          · simp [hbx] at hnil
    · intro h
      rcases h with h | ⟨t, h⟩
      · subst h
        rfl
      · subst h
        rw [List.map_cons, List.takeWhile_cons]
        simp

/-- Witness for C10 at a concrete credential (payload decodes to
`org:secret`). -/
theorem c10_decoder_payload_witness :
    getOrgIDFromPublicKey
        ("public_" ++ String.mk (b64EncodeGroups (strBytes ("org" ++ ":" ++ "sec"))))
      = String.mk (((strBytes ("org" ++ ":" ++ "sec")).map Char.ofNat).takeWhile
          (fun c => c ≠ Char.ofNat 58)) ∧
    splitOnChar (Char.ofNat 58) [] ≠ [] := by
  constructor
  · exact c10_decoder_payload.1
      ("public_" ++ String.mk (b64EncodeGroups (strBytes ("org" ++ ":" ++ "sec"))))
      (strBytes ("org" ++ ":" ++ "sec")) (by decide) (by decide)
  · exact c10_decoder_payload.2.2.2 []

/-- C1: for every combination of override/default context presence, the
request built by the evaluation context builder has a non-empty targeting
key: the active context's key when non-empty, else the resolver's key for the
active context, else the construction-time default targeting key, which is
itself never empty. -/
theorem c1_targeting_key_nonempty (appID env optsKey : String)
    (defaultCtx contextOverride : Option Context) (r r2 : Nat) :
    newDefaultTargetingKey optsKey defaultCtx appID env r ≠ "" ∧
    (buildEvaluationContext
        ⟨appID, env, defaultCtx, newDefaultTargetingKey optsKey defaultCtx appID env r⟩
        contextOverride r2).targetingKey ≠ "" ∧
    (∀ c, (contextOverride = some c ∨ (contextOverride = none ∧ defaultCtx = some c)) →
       (buildEvaluationContext
           ⟨appID, env, defaultCtx, newDefaultTargetingKey optsKey defaultCtx appID env r⟩
           contextOverride r2).targetingKey =
         (if c.targetingKey = "" then getTargetingKey c appID env r2
          else c.targetingKey)) ∧
    (contextOverride = none → defaultCtx = none →
       (buildEvaluationContext
           ⟨appID, env, defaultCtx, newDefaultTargetingKey optsKey defaultCtx appID env r⟩
           contextOverride r2).targetingKey =
         newDefaultTargetingKey optsKey defaultCtx appID env r) := by
  refine ⟨newDefaultTargetingKey_ne_empty optsKey defaultCtx appID env r, ?_, ?_, ?_⟩
  · cases ho : contextOverride with
    | some c =>
        rw [buildEvaluationContext_active _ c (some c) r2 (by rfl)]
        by_cases hk : c.targetingKey = ""
        · simp [hk]
          exact getTargetingKey_ne_empty c appID env r2
        · simp [hk]
    | none =>
        cases hd : defaultCtx with
        | some c =>
            rw [buildEvaluationContext_active _ c none r2 (by rfl)]
            by_cases hk : c.targetingKey = ""
            · simp [hk]
              exact getTargetingKey_ne_empty c appID env r2
            · simp [hk]
        | none =>
            rw [buildEvaluationContext_inactive _ r2 (by rfl)]
            simpa using newDefaultTargetingKey_ne_empty optsKey none appID env r
  · intro c hcase
    rcases hcase with hov | ⟨hov, hd⟩
    · rw [hov, buildEvaluationContext_active _ c (some c) r2 (by rfl)]
    · rw [hov, buildEvaluationContext_active _ c none r2 (by exact hd)]
  · intro hov hd
    rw [hov, buildEvaluationContext_inactive _ r2 (by exact hd)]

/-- Witness for C1 at concrete inputs (no contexts anywhere, empty
configured key). -/
theorem c1_targeting_key_nonempty_witness :
    newDefaultTargetingKey "" none "app" "env" 5 ≠ "" ∧
    (buildEvaluationContext
        ⟨"app", "env", none, newDefaultTargetingKey "" none "app" "env" 5⟩
        none 6).targetingKey ≠ "" ∧
    (buildEvaluationContext
        ⟨"app", "env", none, newDefaultTargetingKey "" none "app" "env" 5⟩
        none 6).targetingKey = newDefaultTargetingKey "" none "app" "env" 5 :=
  ⟨(c1_targeting_key_nonempty "app" "env" "" none none 5 6).1,
   (c1_targeting_key_nonempty "app" "env" "" none none 5 6).2.1,
   (c1_targeting_key_nonempty "app" "env" "" none none 5 6).2.2.2 rfl rfl⟩

/-- C2: the typed accessors return the server value when the key is present
in the first successful response and its dynamic type matches; they return
the supplied default when the value's type mismatches, when the key is
absent, and when every endpoint fails — in every case a plain value is
returned, never an error. -/
theorem c2_typed_accessors (hs : Bool) (urls : List String)
    (world : Nat → PostOutcome) (key : String) (bd : Bool) (sd : String)
    (nd : Rat) (od : List (String × GoValue)) :
    (∀ i st toggles ev, i < urls.length →
       (∀ j, j < i → attemptFails (world j) = true) →
       world i = .postOk 200 st (.parsed toggles) →
       toggles.lookup key = some ev →
       ((∀ b, ev.value = .boolVal b → (getBooleanFull hs urls world key bd).1 = b) ∧
        ((∀ b, ev.value ≠ .boolVal b) → (getBooleanFull hs urls world key bd).1 = bd) ∧
        (∀ v, ev.value = .strVal v → (getStringFull hs urls world key sd).1 = v) ∧
        ((∀ v, ev.value ≠ .strVal v) → (getStringFull hs urls world key sd).1 = sd) ∧
        (∀ v, ev.value = .numVal v → (getNumberFull hs urls world key nd).1 = v) ∧
        ((∀ v, ev.value ≠ .numVal v) → (getNumberFull hs urls world key nd).1 = nd) ∧
        (∀ v, ev.value = .objVal v → (getObjectFull hs urls world key od).1 = v) ∧
        ((∀ v, ev.value ≠ .objVal v) → (getObjectFull hs urls world key od).1 = od))) ∧
    (∀ i st toggles, i < urls.length →
       (∀ j, j < i → attemptFails (world j) = true) →
       world i = .postOk 200 st (.parsed toggles) →
       toggles.lookup key = none →
       ((getBooleanFull hs urls world key bd).1 = bd ∧
        (getStringFull hs urls world key sd).1 = sd ∧
        (getNumberFull hs urls world key nd).1 = nd ∧
        (getObjectFull hs urls world key od).1 = od)) ∧
    ((∀ i, i < urls.length → attemptFails (world i) = true) →
       ((getBooleanFull hs urls world key bd).1 = bd ∧
        (getStringFull hs urls world key sd).1 = sd ∧
        (getNumberFull hs urls world key nd).1 = nd ∧
        (getObjectFull hs urls world key od).1 = od)) := by
  refine ⟨?_, ?_, ?_⟩
  · intro i st toggles ev hi hfb hw hlk
    have hB := toggleGet_firstSuccess hs urls world key (.boolVal bd) i st toggles hi hfb hw
    have hS := toggleGet_firstSuccess hs urls world key (.strVal sd) i st toggles hi hfb hw
    have hN := toggleGet_firstSuccess hs urls world key (.numVal nd) i st toggles hi hfb hw
    have hO := toggleGet_firstSuccess hs urls world key (.objVal od) i st toggles hi hfb hw
    refine ⟨?_, ?_, ?_, ?_, ?_, ?_, ?_, ?_⟩
    · intro b hv
      simp [getBooleanFull, hB, hlk, hv]
    · intro hnb
      simp [getBooleanFull, hB, hlk]
    · intro v hv
      simp [getStringFull, hS, hlk, hv]
    · intro hnb
      simp [getStringFull, hS, hlk]
    · intro v hv
      simp [getNumberFull, hN, hlk, hv]
    · intro hnb
      simp [getNumberFull, hN, hlk]
    · intro v hv
      simp [getObjectFull, hO, hlk, hv]
    · intro hnb
      simp [getObjectFull, hO, hlk]
  · intro i st toggles hi hfb hw hlk
    have hB := toggleGet_firstSuccess hs urls world key (.boolVal bd) i st toggles hi hfb hw
    have hS := toggleGet_firstSuccess hs urls world key (.strVal sd) i st toggles hi hfb hw
    have hN := toggleGet_firstSuccess hs urls world key (.numVal nd) i st toggles hi hfb hw
    have hO := toggleGet_firstSuccess hs urls world key (.objVal od) i st toggles hi hfb hw
    exact ⟨by simp [getBooleanFull, hB, hlk], by simp [getStringFull, hS, hlk],
           by simp [getNumberFull, hN, hlk], by simp [getObjectFull, hO, hlk]⟩
  · intro hf
    have hB := toggleGet_allFail hs urls world key (.boolVal bd) hf
    have hS := toggleGet_allFail hs urls world key (.strVal sd) hf
    have hN := toggleGet_allFail hs urls world key (.numVal nd) hf
    have hO := toggleGet_allFail hs urls world key (.objVal od) hf
    exact ⟨by simp [getBooleanFull, hB], by simp [getStringFull, hS],
           by simp [getNumberFull, hN], by simp [getObjectFull, hO]⟩

/-- Witness for C2: one endpoint answers 200 with the requested key mapped
to boolean true; the boolean accessor returns true. -/
theorem c2_typed_accessors_witness :
    (getBooleanFull false ["https://toggle.hyphen.cloud"]
        (fun _ => .postOk 200 "OK"
          (.parsed [("feature-flag",
            ⟨"feature-flag", .boolVal true, "boolean", .null, ""⟩)]))
        "feature-flag" false).1 = true := by
  have h := (c2_typed_accessors false ["https://toggle.hyphen.cloud"]
      (fun _ => .postOk 200 "OK"
        (.parsed [("feature-flag",
          ⟨"feature-flag", .boolVal true, "boolean", .null, ""⟩)]))
      "feature-flag" false "d" 0 []).1 0 "OK"
      [("feature-flag", ⟨"feature-flag", .boolVal true, "boolean", .null, ""⟩)]
      ⟨"feature-flag", .boolVal true, "boolean", .null, ""⟩
      (by decide) (fun j hj => absurd hj (Nat.not_lt_zero j)) rfl rfl
  exact h.1 true rfl

/-- C3: when every endpoint fails, `Get` reports — to the error handler when
one is configured, exactly once — an aggregate error wrapping the last
endpoint's failure, and returns the caller's default value alongside that
error. -/
theorem c3_all_endpoints_failed (hs : Bool) (urls : List String)
    (world : Nat → PostOutcome) (key : String) (dflt : GoValue)
    (hne : urls ≠ [])
    (hf : ∀ i, i < urls.length → attemptFails (world i) = true) :
    ∃ lastE,
      lastE = attemptError (urls.getLast hne) (world (urls.length - 1)) ∧
      toggleGet hs urls world key dflt =
        { value := dflt, error := some (.allFailed (some lastE)),
          emitted := if hs then [.allFailed (some lastE)] else [],
          attempts := urls.length } := by
  refine ⟨attemptError (urls.getLast hne) (world (urls.length - 1)), rfl, ?_⟩
  have hfe := finalErr_last world urls 0 none hne
  have h0 : 0 + urls.length - 1 = urls.length - 1 := by omega
  rw [h0] at hfe
  rw [toggleGet_allFail hs urls world key dflt hf, hfe]

/-- Witness for C3: two unreachable endpoints, handler configured — exactly
one aggregate error is emitted and the default comes back. -/
theorem c3_all_endpoints_failed_witness :
    ∃ lastE,
      lastE = attemptError (["a", "b"].getLast (by decide))
        ((fun _ => PostOutcome.postErr (.transportFailure "down")) (2 - 1)) ∧
      toggleGet true ["a", "b"]
          (fun _ => PostOutcome.postErr (.transportFailure "down"))
          "any-key" (.boolVal false) =
        { value := .boolVal false, error := some (.allFailed (some lastE)),
          emitted := [.allFailed (some lastE)], attempts := 2 } := by
  have h := c3_all_endpoints_failed true ["a", "b"]
    (fun _ => PostOutcome.postErr (.transportFailure "down"))
    "any-key" (.boolVal false) (by decide) (fun i hi => rfl)
  simpa using h

/-- C4: a failure at one endpoint is recorded and the next endpoint is tried
transparently; with the primary answering HTTP 500 and the secondary
answering HTTP 200 with the key present, `Get` returns the secondary's value
with no error and no error-handler invocation. -/
theorem c4_secondary_failover (hs : Bool) (world : Nat → PostOutcome)
    (primary secondary key : String) (dflt : GoValue) (st1 : String)
    (body1 : BodyContent) (st2 : String)
    (toggles : List (String × Evaluation)) (ev : Evaluation)
    (h1 : world 0 = .postOk 500 st1 body1)
    (h2 : world 1 = .postOk 200 st2 (.parsed toggles))
    (hlk : toggles.lookup key = some ev) :
    toggleGet hs [primary, secondary] world key dflt =
      { value := ev.value, error := none, emitted := [], attempts := 2 } ∧
    (∀ (url : String) (rest : List String) (n : Nat) (le : Option GoError),
       attemptFails (world n) = true →
       getAux hs world key dflt (url :: rest) n le =
         getAux hs world key dflt rest (n + 1)
           (some (attemptError url (world n)))) := by
  constructor
  · have hfb : ∀ j, j < 1 → attemptFails (world j) = true := by
      intro j hj
      have hj0 : j = 0 := by omega
      subst hj0
      rw [h1]
      rfl
    have h := toggleGet_firstSuccess hs [primary, secondary] world key dflt 1
      st2 toggles (by simp) hfb h2
    rw [h, hlk]
  · intro url rest n le hfail
    exact getAux_skip hs world key dflt url rest n le hfail

/-- Witness for C4: primary returns 500, secondary returns the key with
value 42 — the call returns 42 with no error and nothing emitted. -/
theorem c4_secondary_failover_witness :
    toggleGet false ["p", "s"]
        (fun n => if n = 0 then .postOk 500 "ISE" .malformed
          else .postOk 200 "OK"
            (.parsed [("k", ⟨"k", .numVal 42, "number", .null, ""⟩)]))
        "k" .null =
      { value := .numVal 42, error := none, emitted := [], attempts := 2 } :=
  (c4_secondary_failover false
    (fun n => if n = 0 then .postOk 500 "ISE" .malformed
      else .postOk 200 "OK"
        (.parsed [("k", ⟨"k", .numVal 42, "number", .null, ""⟩)]))
    "p" "s" "k" .null "ISE" .malformed "OK"
    [("k", ⟨"k", .numVal 42, "number", .null, ""⟩)]
    ⟨"k", .numVal 42, "number", .null, ""⟩ rfl rfl rfl).1

/-- Counterexample to C8 as stated: with two endpoints and every POST failing
with the context-cancellation error, the loop still advances to the second
endpoint — it makes 2 attempts, not 1, because `Get` treats a cancellation
failure like any transport error (`continue`), with no special case. -/
theorem c8_counterexample :
    (toggleGet false ["a", "b"] (fun _ => .postErr .ctxCancelled)
        "k" .null).attempts = 2 ∧
    ¬ (toggleGet false ["a", "b"] (fun _ => .postErr .ctxCancelled)
        "k" .null).attempts = 1 := by
  constructor
  · rfl
  · intro h
    have h2 : (toggleGet false ["a", "b"] (fun _ => .postErr .ctxCancelled)
        "k" .null).attempts = 2 := rfl
    rw [h] at h2
    exact absurd h2 (by decide)

/-- C8 amended: a cancelled context makes the current attempt fail, and the
loop advances through every remaining endpoint exactly as for any transport
failure (each attempt failing immediately with the cancellation error); the
call then returns the default value together with an aggregate error
wrapping the cancellation at the last endpoint. -/
theorem c8_cancellation_amended (hs : Bool) (urls : List String) (key : String)
    (dflt : GoValue) (hne : urls ≠ []) :
    toggleGet hs urls (fun _ => .postErr .ctxCancelled) key dflt =
      { value := dflt,
        error := some (.allFailed (some
          (.requestFailed (urls.getLast hne) .ctxCancelled))),
        emitted := if hs then
          [.allFailed (some (.requestFailed (urls.getLast hne) .ctxCancelled))]
          else [],
        attempts := urls.length } := by
  have hf : ∀ i, i < urls.length →
      attemptFails ((fun _ => PostOutcome.postErr GoError.ctxCancelled) i) = true := by
    intro i hi
    rfl
  have hfe := finalErr_last (fun _ => PostOutcome.postErr GoError.ctxCancelled)
    urls 0 none hne
  rw [toggleGet_allFail hs urls (fun _ => PostOutcome.postErr GoError.ctxCancelled)
    key dflt hf, hfe]
  rfl

/-- Witness for the amended C8: one endpoint, cancelled context — one
attempt, default returned, aggregate error wrapping the cancellation. -/
theorem c8_cancellation_amended_witness :
    toggleGet false ["a"] (fun _ => .postErr .ctxCancelled) "k" .null =
      { value := .null,
        error := some (.allFailed (some (.requestFailed "a" .ctxCancelled))),
        emitted := [], attempts := 1 } := by
  have h := c8_cancellation_amended false ["a"] "k" .null (by decide)
  simpa using h

/-- C9: every constructed client has a non-empty endpoint list (default
resolution yields one or two endpoints), so the evaluation loop always makes
at least one attempt and the aggregate all-failed error always wraps a real
per-endpoint failure. -/
theorem c9_nonempty_endpoints (hs : Bool) (world : Nat → PostOutcome)
    (key : String) (dflt : GoValue) :
    (∀ pk, getDefaultHorizonURLs pk ≠ [] ∧
       ((getDefaultHorizonURLs pk).length = 1 ∨
        (getDefaultHorizonURLs pk).length = 2)) ∧
    (∀ (optURLs : List String) (pk : String),
       resolveHorizonURLs optURLs pk ≠ []) ∧
    (∀ urls, urls ≠ [] →
       1 ≤ (toggleGet hs urls world key dflt).attempts) ∧
    (∀ urls o, urls ≠ [] →
       (toggleGet hs urls world key dflt).error = some (.allFailed o) →
       ∃ e, o = some e) := by
  have hcases : ∀ pk, getDefaultHorizonURLs pk = ["https://toggle.hyphen.cloud"] ∨
      getDefaultHorizonURLs pk =
        [getDefaultHorizonURL pk, "https://toggle.hyphen.cloud"] := by
    intro pk
    unfold getDefaultHorizonURLs
    by_cases h : pk = ""
    · left
      rw [if_pos h]
    · rw [if_neg h]
      by_cases h2 : getDefaultHorizonURL pk = "https://toggle.hyphen.cloud"
      · left
        rw [if_pos h2]
      · right
        rw [if_neg h2]
  refine ⟨?_, ?_, ?_, ?_⟩
  · intro pk
    rcases hcases pk with h | h <;> rw [h] <;> simp
  · intro optURLs pk
    unfold resolveHorizonURLs
    by_cases h : optURLs.length = 0
    · rw [if_pos h]
      rcases hcases pk with h2 | h2 <;> rw [h2] <;> simp
    · rw [if_neg h]
      intro hnil
      rw [hnil] at h
      simp at h
  · intro urls hne
    rcases urls with _ | ⟨u, rest⟩
    · exact absurd rfl hne
    · exact getAux_attempts_cons hs world key dflt u rest 0 none
  · intro urls o hne herr
    rcases getAux_error_shape hs world key dflt urls 0 none with h | h
    · unfold toggleGet at herr
      rw [h] at herr
      simp at herr
    · unfold toggleGet at herr
      rw [h] at herr
      simp at herr
      rcases urls with _ | ⟨u, rest⟩
      · exact absurd rfl hne
      · have hcons : finalErr world (u :: rest) 0 none =
            finalErr world rest 1 (some (attemptError u (world 0))) := rfl
        obtain ⟨e2, he2⟩ := finalErr_some world rest 1 (attemptError u (world 0))
        refine ⟨e2, ?_⟩
        rw [← herr, hcons, he2]

/-- Witness for C9 at concrete inputs. -/
theorem c9_nonempty_endpoints_witness :
    getDefaultHorizonURLs "" ≠ [] ∧
    resolveHorizonURLs [] "" ≠ [] ∧
    1 ≤ (toggleGet false ["a"] (fun _ => .postErr (.transportFailure "x"))
        "k" .null).attempts ∧
    (∃ e, (some (GoError.transportFailure "x") : Option GoError) = some e) := by
  refine ⟨?_, ?_, ?_, ⟨GoError.transportFailure "x", rfl⟩⟩
  · exact ((c9_nonempty_endpoints false (fun _ => .postErr (.transportFailure "x"))
      "k" .null).1 "").1
  · exact (c9_nonempty_endpoints false (fun _ => .postErr (.transportFailure "x"))
      "k" .null).2.1 [] ""
  · exact (c9_nonempty_endpoints false (fun _ => .postErr (.transportFailure "x"))
      "k" .null).2.2.1 ["a"] (by decide)
